import Mathlib

/-!
Verification of the expo-availability-analyze core: the two event-deduplication
variants and the time-of-day distribution/bucketing engine, embedded from the
Python sources `ireland_pavilion_corrected_analysis.py`, `pavilion_analyzer.py`
and `scatter_plot_analyzer.py`.

Timestamps are modelled as integer numbers of seconds (JST); the Python code
compares them through `timedelta.total_seconds()` against whole numbers of
seconds, so integers are exact.  Times-of-day used by the bucketing code are
modelled as natural numbers of minutes since midnight (the code reads the
`hour` and `minute` fields of the timestamp).  Percentages, computed by the
Python code with `/` and `* 100`, are modelled as rationals.
-/

/-- One raw release record as collected by `preprocess_releases_for_prediction`
(`ireland_pavilion_corrected_analysis.py`) and
`preprocess_releases_for_distribution` (`pavilion_analyzer.py`): the JST
timestamp in seconds together with the `time_slot` payload it carries along
(modelled as an opaque natural number). -/
structure ReleaseEvent where
  timestamp : Int
  time_slot : Nat
deriving DecidableEq, Repr

/-- The streaming deduplication loop shared by
`preprocess_releases_for_prediction` (lines 98-114 of
`ireland_pavilion_corrected_analysis.py`) and
`preprocess_releases_for_distribution` (lines 125-141 of
`pavilion_analyzer.py`): keep an event when no event has been kept yet
(`last_release_time is None`) or when at least `delta` seconds passed since the
last kept one; on acceptance the last-kept time becomes the current timestamp
(Policy A, last-accepted comparison). -/
def dedup_go (delta : Int) : Option Int → List ReleaseEvent → List ReleaseEvent
  | _, [] => []
  | none, e :: rest => e :: dedup_go delta (some e.timestamp) rest
  | some l, e :: rest =>
    if delta ≤ e.timestamp - l then e :: dedup_go delta (some e.timestamp) rest
    else dedup_go delta (some l) rest

/-- `preprocess_releases_for_prediction(data, interval_minutes)`: the 15-minute
deduplication entry point; the comparison threshold is
`interval_minutes * 60` seconds.  The function performs no validation of
`interval_minutes`. -/
def preprocess_releases_for_prediction (interval_minutes : Int)
    (events : List ReleaseEvent) : List ReleaseEvent :=
  dedup_go (interval_minutes * 60) none events

/-- `preprocess_releases_for_distribution(data, interval_minutes)` in
`pavilion_analyzer.py` runs the identical loop on the identical condition. -/
def preprocess_releases_for_distribution (interval_minutes : Int)
    (events : List ReleaseEvent) : List ReleaseEvent :=
  preprocess_releases_for_prediction interval_minutes events

/-- The inner loop of `analyze_daily_release_patterns`
(`pavilion_analyzer.py` lines 84-96) and `analyze_release_patterns`
(`scatter_plot_analyzer.py` lines 77-88): a candidate time is appended only if
its absolute difference to every already-retained time is at least `delta`
seconds (Policy B, all-retained comparison). -/
def filter_times_go (delta : Int) (acc : List Int) : List Int → List Int
  | [] => acc
  | t :: ts =>
    if ∀ e ∈ acc, delta ≤ |t - e| then filter_times_go delta (acc ++ [t]) ts
    else filter_times_go delta acc ts

/-- The per-date Policy B filter, started from the empty retained list. -/
def filter_times (delta : Int) (times : List Int) : List Int :=
  filter_times_go delta [] times

/-- Insertion step of a stable ascending sort, modelling Python's stable
`sorted` on the per-date time lists. -/
def insertLe (x : Int) : List Int → List Int
  | [] => [x]
  | y :: ys => if x ≤ y then x :: y :: ys else y :: insertLe x ys

/-- Ascending stable sort of a list of times (`sorted(...)` in the source). -/
def sortTimes (l : List Int) : List Int :=
  l.foldr insertLe []

/-- One observed record as grouped by `analyze_daily_release_patterns` /
`analyze_release_patterns`: the civil date (opaque integer key) and the
`exact_time` timestamp in seconds. -/
structure ObservedItem where
  date : Int
  exact_time : Int
deriving DecidableEq, Repr

/-- `analyze_release_patterns` (`scatter_plot_analyzer.py` lines 61-92, same
shape as `analyze_daily_release_patterns` in `pavilion_analyzer.py` lines
66-100): group items by civil date, sort each date's times ascending, and run
the 10-minute (600 second) Policy B filter on each date's list independently.
The result is read per date key `d`. -/
def analyze_release_patterns (items : List ObservedItem) (d : Int) : List Int :=
  filter_times 600 (sortTimes ((items.filter (fun i => i.date = d)).map
    (fun i => i.exact_time)))

/-- The 40 coarse bucket start times (minutes since midnight) generated by the
`for hour in range(10, 20): for minute in [0, 15, 30, 45]` loops of
`calculate_release_time_distribution` and `calculate_corrected_distribution`:
10:00, 10:15, ..., 19:45. -/
def all_time_slots : List Nat :=
  (List.range 40).map (fun i => 600 + 15 * i)

/-- Rounding a time-of-day (minutes since midnight) to its 15-minute bucket
start: the code keeps the hour and replaces the minute by
`(minute // 15) * 15`, which on minutes since midnight is `(t / 15) * 15`. -/
def round15 (t : Nat) : Nat :=
  (t / 15) * 15

/-- Per-bucket event count of `calculate_release_time_distribution`
(`pavilion_analyzer.py` lines 197-206): an event contributes to bucket `s`
when its rounded time-of-day equals `s` and that rounded value is one of the
generated 10:00-19:45 slots. -/
def slotCount (E : List Nat) (s : Nat) : Nat :=
  E.countP (fun t => decide (round15 t = s ∧ round15 t ∈ all_time_slots))

/-- One bucket row of a venue distribution: start minute, event count and the
percentage the code computes as `count / total * 100`. -/
structure BucketStat where
  start : Nat
  count : Nat
  percentage : Rat
deriving DecidableEq, Repr

/-- The aggregate per-venue result (`pavilion_distributions[code]`):
`total_releases` and the complete ordered bucket list. -/
structure VenueDistribution where
  total_releases : Nat
  buckets : List BucketStat
deriving DecidableEq, Repr

/-- The distribution body of `calculate_release_time_distribution` for one
venue with deduplicated time-of-day list `E` (minutes since midnight):
`total_releases = len(E)` (all deduplicated events, windowed or not), and one
bucket per generated slot with `percentage = count / total * 100`. -/
def distBody (E : List Nat) : VenueDistribution :=
  { total_releases := E.length
    buckets := all_time_slots.map (fun s =>
      { start := s
        count := slotCount E s
        percentage := (slotCount E s : Rat) / (E.length : Rat) * 100 }) }

/-- `calculate_release_time_distribution` per venue: the venue is skipped
(`continue`) when its deduplicated list is empty, otherwise the distribution
body is produced. -/
def calculate_release_time_distribution (E : List Nat) :
    Option VenueDistribution :=
  if E.isEmpty then none else some (distBody E)

/-- The counting guard of `calculate_corrected_distribution`
(`ireland_pavilion_corrected_analysis.py` lines 153-169): with
`h = hour`, `im = (minute // 15) * 15` and `eh = h if im < 45 else h + 1`,
an event is counted only when `10 <= h < 20` and `eh < 20`. -/
def corrected_counted (t : Nat) : Bool :=
  let h := t / 60
  let im := (t % 60 / 15) * 15
  let eh := if im < 45 then h else h + 1
  decide (10 ≤ h ∧ h < 20) && decide (eh < 20)

/-- Per-bucket count of `calculate_corrected_distribution`: events passing the
guard, grouped by their 15-minute-rounded time-of-day. -/
def corrected_slotCount (E : List Nat) (s : Nat) : Nat :=
  E.countP (fun t => corrected_counted t && decide (round15 t = s))

/-- The distribution body of `calculate_corrected_distribution`
(`ireland_pavilion_corrected_analysis.py` lines 143-186): total is the full
deduplicated count, every generated time label is present, and
`percentage = (count / total * 100) if total > 0 else 0`. -/
def corrected_distBody (E : List Nat) : VenueDistribution :=
  { total_releases := E.length
    buckets := all_time_slots.map (fun s =>
      { start := s
        count := corrected_slotCount E s
        percentage :=
          if 0 < E.length then (corrected_slotCount E s : Rat) / (E.length : Rat) * 100
          else 0 }) }

/-- `calculate_corrected_distribution` per venue: `if not releases: continue`
skips empty venues, otherwise the body is produced. -/
def calculate_corrected_distribution (E : List Nat) : Option VenueDistribution :=
  if E.isEmpty then none else some (corrected_distBody E)

/-- The 600 fine (1-minute) slots generated by
`calculate_detailed_ireland_distribution` (`pavilion_analyzer.py` lines
353-360): every minute from 10:00 to 19:59. -/
def all_minute_slots : List Nat :=
  (List.range 600).map (fun i => 600 + i)

/-- Per-minute count of `calculate_detailed_ireland_distribution` (lines
371-382): an event contributes to minute slot `m` when its minute-of-day
equals `m` and lies among the generated 10:00-19:59 slots. -/
def minuteCount (E : List Nat) (m : Nat) : Nat :=
  E.countP (fun t => decide (t = m ∧ t ∈ all_minute_slots))

/-- The distribution body of `calculate_detailed_ireland_distribution`: same
total as the coarse pass, one bucket per 1-minute slot of the full
10:00-20:00 window. -/
def detailedBody (E : List Nat) : VenueDistribution :=
  { total_releases := E.length
    buckets := all_minute_slots.map (fun m =>
      { start := m
        count := minuteCount E m
        percentage := (minuteCount E m : Rat) / (E.length : Rat) * 100 }) }

/-- `calculate_detailed_ireland_distribution` per venue (lines 344-405):
empty venues are skipped, otherwise the fine body is produced. -/
def calculate_detailed_ireland_distribution (E : List Nat) :
    Option VenueDistribution :=
  if E.isEmpty then none else some (detailedBody E)

/-- Minute-of-day of a timestamp in seconds, as read through the `hour` and
`minute` fields of the JST datetime. -/
def minuteOfDay (ts : Int) : Nat :=
  ((ts / 60) % 1440).toNat

/-- The shared deduplicated event set both passes of `pavilion_analyzer.py`
are computed from: `preprocess_releases_for_distribution(data, 15)` followed by
reading each kept event's time-of-day. -/
def pipeline_events (data : List ReleaseEvent) : List Nat :=
  (preprocess_releases_for_distribution 15 data).map (fun e => minuteOfDay e.timestamp)

/-- The coarse pass of `calculate_release_time_distribution` run on the raw
per-venue data, deduplication included. -/
def coarse_pipeline (data : List ReleaseEvent) : Option VenueDistribution :=
  calculate_release_time_distribution (pipeline_events data)

/-- The fine pass of `calculate_detailed_ireland_distribution` run on the raw
per-venue data, deduplication included. -/
def detailed_pipeline (data : List ReleaseEvent) : Option VenueDistribution :=
  calculate_detailed_ireland_distribution (pipeline_events data)

/-- Insertion step of the stable descending-by-percentage sort that models
Python's stable `sorted(..., key=lambda x: x[1]['percentage'], reverse=True)`
in `generate_distribution_table` (`pavilion_analyzer.py` lines 321-326) and
`generate_corrected_report` (`ireland_pavilion_corrected_analysis.py` lines
319-323): a new element passes over exactly the entries of strictly larger or
equal percentage, so equal-percentage entries keep their original order. -/
def insertByPct (b : BucketStat) : List BucketStat → List BucketStat
  | [] => [b]
  | c :: cs => if c.percentage < b.percentage then b :: c :: cs else c :: insertByPct b cs

/-- Stable descending sort by percentage over the bucket rows. -/
def stableSortDesc (l : List BucketStat) : List BucketStat :=
  l.foldl (fun acc b => insertByPct b acc) []

/-- The ranking built by `generate_distribution_table` /
`generate_corrected_report`: keep the buckets with `percentage > 0` (in bucket
start order, the insertion order of the distribution dict) and sort them by
percentage descending with Python's stable sort. -/
def ranking_of (d : VenueDistribution) : List BucketStat :=
  stableSortDesc (d.buckets.filter (fun b => decide (0 < b.percentage)))

/-- If the Policy A loop was entered with last-kept time `l`, the first event
it outputs is at least `delta` seconds after `l`. -/
lemma dedup_go_head_bound (delta : Int) (l : Int) (ts : List ReleaseEvent) :
    ∀ e ∈ (dedup_go delta (some l) ts).head?, delta ≤ e.timestamp - l := by
  induction ts with
  | nil => simp [dedup_go]
  | cons t ts ih =>
    by_cases h : delta ≤ t.timestamp - l
    · simp [dedup_go, h]
    · simpa [dedup_go, h] using ih

/-- Consecutive events kept by the Policy A loop are at least `delta` seconds
apart, for every starting accumulator. -/
lemma dedup_go_chain' (delta : Int) (acc : Option Int) (ts : List ReleaseEvent) :
    (dedup_go delta acc ts).Chain' (fun a b => delta ≤ b.timestamp - a.timestamp) := by
  induction ts generalizing acc with
  | nil => simp [dedup_go]
  | cons t ts ih =>
    cases acc with
    | none =>
      rw [dedup_go, List.chain'_cons']
      exact ⟨fun b hb => by simpa using dedup_go_head_bound delta t.timestamp ts b hb,
        ih (some t.timestamp)⟩
    | some l =>
      by_cases h : delta ≤ t.timestamp - l
      · rw [dedup_go, if_pos h, List.chain'_cons']
        exact ⟨fun b hb => by simpa using dedup_go_head_bound delta t.timestamp ts b hb,
          ih (some t.timestamp)⟩
      · rw [dedup_go, if_neg h]
        exact ih (some l)

/-- The Policy A output is a sublist of its input, for every accumulator. -/
lemma dedup_go_sublist (delta : Int) (acc : Option Int) (ts : List ReleaseEvent) :
    (dedup_go delta acc ts).Sublist ts := by
  induction ts generalizing acc with
  | nil => simp [dedup_go]
  | cons t ts ih =>
    cases acc with
    | none => exact (ih (some t.timestamp)).cons₂ t
    | some l =>
      by_cases h : delta ≤ t.timestamp - l
      · rw [dedup_go, if_pos h]
        exact (ih (some t.timestamp)).cons₂ t
      · rw [dedup_go, if_neg h]
        exact (ih (some l)).cons t

/-- On a list whose consecutive gaps are already at least `delta`, the Policy A
loop restarted after `l` keeps everything, provided the first entry is at
least `delta` after `l`. -/
lemma dedup_go_id_of_sep (delta : Int) (ts : List ReleaseEvent)
    (hc : ts.Chain' (fun a b => delta ≤ b.timestamp - a.timestamp)) :
    ∀ l, (∀ e ∈ ts.head?, delta ≤ e.timestamp - l) →
      dedup_go delta (some l) ts = ts := by
  induction ts with
  | nil => intro l _; simp [dedup_go]
  | cons t ts ih =>
    intro l hl
    have h1 : delta ≤ t.timestamp - l := by simpa using hl t
    rw [List.chain'_cons'] at hc
    rw [dedup_go, if_pos h1, ih hc.2 t.timestamp hc.1]

/-- Policy A is the identity on lists whose consecutive gaps are already at
least `delta`. -/
lemma dedup_go_id (delta : Int) (ts : List ReleaseEvent)
    (hc : ts.Chain' (fun a b => delta ≤ b.timestamp - a.timestamp)) :
    dedup_go delta none ts = ts := by
  cases ts with
  | nil => rfl
  | cons t ts =>
    rw [List.chain'_cons'] at hc
    rw [dedup_go, dedup_go_id_of_sep delta ts hc.2 t.timestamp hc.1]

/-- With a non-positive threshold and a chronologically sorted tail whose head
is not earlier than `l`, the Policy A loop keeps every event. -/
lemma dedup_go_all_of_nonpos (delta : Int) (hd : delta ≤ 0) (ts : List ReleaseEvent)
    (hs : ts.Chain' (fun a b => a.timestamp ≤ b.timestamp)) :
    ∀ l, (∀ e ∈ ts.head?, l ≤ e.timestamp) → dedup_go delta (some l) ts = ts := by
  induction ts with
  | nil => intro l _; simp [dedup_go]
  | cons t ts ih =>
    intro l hl
    have h1 : l ≤ t.timestamp := by simpa using hl t
    rw [List.chain'_cons'] at hs
    have : delta ≤ t.timestamp - l := le_trans hd (by omega)
    rw [dedup_go, if_pos this, ih hs.2 t.timestamp hs.1]

/-- The Policy B loop only appends to the already-retained list: its result is
the accumulator followed by some sublist of the remaining input. -/
lemma filter_times_go_append (delta : Int) (ts : List Int) :
    ∀ acc, ∃ s, filter_times_go delta acc ts = acc ++ s ∧ s.Sublist ts := by
  induction ts with
  | nil => intro acc; exact ⟨[], by simp [filter_times_go]⟩
  | cons t ts ih =>
    intro acc
    by_cases h : ∀ e ∈ acc, delta ≤ |t - e|
    · obtain ⟨s, hs, hsub⟩ := ih (acc ++ [t])
      refine ⟨t :: s, ?_, hsub.cons₂ t⟩
      rw [filter_times_go, if_pos h, hs]
      simp
    · obtain ⟨s, hs, hsub⟩ := ih acc
      refine ⟨s, ?_, hsub.cons t⟩
      rw [filter_times_go, if_neg h, hs]

/-- Any two distinct times retained by the Policy B loop are at least `delta`
seconds apart, provided the accumulator already satisfies this. -/
lemma filter_times_go_pairwise (delta : Int) (ts : List Int) :
    ∀ acc, acc.Pairwise (fun a b => delta ≤ |b - a|) →
      (filter_times_go delta acc ts).Pairwise (fun a b => delta ≤ |b - a|) := by
  induction ts with
  | nil => intro acc hacc; simpa [filter_times_go] using hacc
  | cons t ts ih =>
    intro acc hacc
    by_cases h : ∀ e ∈ acc, delta ≤ |t - e|
    · rw [filter_times_go, if_pos h]
      refine ih (acc ++ [t]) ?_
      rw [List.pairwise_append]
      refine ⟨hacc, by simp, ?_⟩
      intro a ha b hb
      rw [List.mem_singleton] at hb
      subst hb
      exact h a ha
    · rw [filter_times_go, if_neg h]
      exact ih acc hacc

/-- On input that is pairwise at least `delta` apart from the accumulator and
within itself, the Policy B loop retains everything. -/
lemma filter_times_go_id (delta : Int) (ts : List Int) :
    ∀ acc, (acc ++ ts).Pairwise (fun a b => delta ≤ |b - a|) →
      filter_times_go delta acc ts = acc ++ ts := by
  induction ts with
  | nil => intro acc _; simp [filter_times_go]
  | cons t ts ih =>
    intro acc hp
    have h : ∀ e ∈ acc, delta ≤ |t - e| := by
      rw [List.pairwise_append] at hp
      intro e he
      exact hp.2.2 e he t (by simp)
    rw [filter_times_go, if_pos h]
    have hassoc : ((acc ++ [t]) ++ ts).Pairwise (fun a b => delta ≤ |b - a|) := by
      simpa [List.append_assoc] using hp
    rw [ih (acc ++ [t]) hassoc]
    simp

/-- Policy B output is pairwise separated by at least `delta` seconds. -/
lemma filter_times_pairwise (delta : Int) (ts : List Int) :
    (filter_times delta ts).Pairwise (fun a b => delta ≤ |b - a|) :=
  filter_times_go_pairwise delta ts [] (by simp)

/-- Policy B is the identity on pairwise-separated input. -/
lemma filter_times_id (delta : Int) (ts : List Int)
    (h : ts.Pairwise (fun a b => delta ≤ |b - a|)) :
    filter_times delta ts = ts :=
  filter_times_go_id delta ts [] (by simpa using h)

/-- Claim C3: for every chronologically sorted input sequence and every
interval of minutes greater than zero, any two consecutive events in the
output of the last-accepted (Policy A) deduplicator are separated by at least
the interval: for all consecutive output pairs `(a, b)`,
`b.timestamp - a.timestamp` is at least `interval_minutes * 60` seconds. -/
theorem C3_min_separation (interval_minutes : Int) (events : List ReleaseEvent)
    (hpos : 0 < interval_minutes)
    (hsorted : events.Chain' (fun a b => a.timestamp ≤ b.timestamp)) :
    (preprocess_releases_for_prediction interval_minutes events).Chain'
      (fun a b => interval_minutes * 60 ≤ b.timestamp - a.timestamp) :=
  dedup_go_chain' (interval_minutes * 60) none events

/-- Concrete instance of claim C3 at interval 15 and events 0 s, 300 s,
1200 s. -/
theorem C3_min_separation_witness :
    0 < (15 : Int) ∧
    (([⟨0, 0⟩, ⟨300, 1⟩, ⟨1200, 2⟩] : List ReleaseEvent)).Chain'
      (fun a b => a.timestamp ≤ b.timestamp) ∧
    (preprocess_releases_for_prediction 15 [⟨0, 0⟩, ⟨300, 1⟩, ⟨1200, 2⟩]).Chain'
      (fun a b => (15 : Int) * 60 ≤ b.timestamp - a.timestamp) :=
  ⟨by decide, by simp [List.chain'_cons],
    C3_min_separation 15 _ (by decide) (by simp [List.chain'_cons])⟩

/-- Claim C4: both deduplication variants are idempotent: re-running the
last-accepted variant on its own output with the same interval yields that
output unchanged, and likewise for the all-retained 10-minute (600 second)
variant. -/
theorem C4_idempotence (interval_minutes : Int) (events : List ReleaseEvent)
    (times : List Int) (hpos : 0 < interval_minutes)
    (hsorted : events.Chain' (fun a b => a.timestamp ≤ b.timestamp))
    (hsorted2 : times.Chain' (· ≤ ·)) :
    preprocess_releases_for_prediction interval_minutes
        (preprocess_releases_for_prediction interval_minutes events) =
      preprocess_releases_for_prediction interval_minutes events ∧
    filter_times 600 (filter_times 600 times) = filter_times 600 times :=
  ⟨dedup_go_id _ _ (dedup_go_chain' _ none events),
    filter_times_id _ _ (filter_times_pairwise _ times)⟩

/-- Concrete instance of claim C4 at interval 15 on events 0 s, 300 s, 1200 s
and times 0 s, 300 s, 1200 s. -/
theorem C4_idempotence_witness :
    0 < (15 : Int) ∧
    preprocess_releases_for_prediction 15
        (preprocess_releases_for_prediction 15 [⟨0, 0⟩, ⟨300, 1⟩, ⟨1200, 2⟩]) =
      preprocess_releases_for_prediction 15 [⟨0, 0⟩, ⟨300, 1⟩, ⟨1200, 2⟩] ∧
    filter_times 600 (filter_times 600 [0, 300, 1200]) =
      filter_times 600 [0, 300, 1200] :=
  ⟨by decide,
    (C4_idempotence 15 [⟨0, 0⟩, ⟨300, 1⟩, ⟨1200, 2⟩] [0, 300, 1200]
      (by decide) (by simp [List.chain'_cons]) (by simp [List.chain'_cons])).1,
    (C4_idempotence 15 [⟨0, 0⟩, ⟨300, 1⟩, ⟨1200, 2⟩] [0, 300, 1200]
      (by decide) (by simp [List.chain'_cons]) (by simp [List.chain'_cons])).2⟩

/-- Counterexample to claim C7: called with a zero or a negative minimum
interval, `preprocess_releases_for_prediction` raises nothing and simply
produces a result (here: it keeps every event), instead of failing with an
invalid-configuration error. -/
theorem C7_no_validation_counterexample :
    preprocess_releases_for_prediction 0 [⟨0, 0⟩, ⟨60, 1⟩] = [⟨0, 0⟩, ⟨60, 1⟩] ∧
    preprocess_releases_for_prediction (-5) [⟨0, 0⟩, ⟨60, 1⟩] = [⟨0, 0⟩, ⟨60, 1⟩] :=
  ⟨by decide, by decide⟩

/-- Claim C7 as amended: the deduplicator performs no validation of the
minimum interval; with a zero or negative interval it silently accepts every
event of a chronologically sorted input and returns the input unchanged,
rather than surfacing a configuration error. -/
theorem C7_no_validation_amended (interval_minutes : Int)
    (events : List ReleaseEvent) (hnp : interval_minutes ≤ 0)
    (hsorted : events.Chain' (fun a b => a.timestamp ≤ b.timestamp)) :
    preprocess_releases_for_prediction interval_minutes events = events := by
  have hd : interval_minutes * 60 ≤ 0 := by omega
  cases events with
  | nil => rfl
  | cons e es =>
    rw [List.chain'_cons'] at hsorted
    rw [preprocess_releases_for_prediction, dedup_go,
      dedup_go_all_of_nonpos _ hd es hsorted.2 e.timestamp hsorted.1]

/-- Concrete instance of amended claim C7 at interval 0 on events 0 s, 60 s. -/
theorem C7_no_validation_witness :
    (0 : Int) ≤ 0 ∧
    (([⟨0, 0⟩, ⟨60, 1⟩] : List ReleaseEvent)).Chain'
      (fun a b => a.timestamp ≤ b.timestamp) ∧
    preprocess_releases_for_prediction 0 [⟨0, 0⟩, ⟨60, 1⟩] = [⟨0, 0⟩, ⟨60, 1⟩] :=
  ⟨le_refl 0, by simp [List.chain'_cons],
    C7_no_validation_amended 0 _ (le_refl 0) (by simp [List.chain'_cons])⟩

/-- Claim C9: for every non-empty chronologically sorted input, both
deduplication variants retain the earliest event (the output head is the input
head), the output is a sublist of the input (original records, original
ascending order), and the output length is between 1 and the input length. -/
theorem C9_earliest_retained (interval_minutes : Int) (events : List ReleaseEvent)
    (times : List Int) (hne : events ≠ []) (hne2 : times ≠ [])
    (hsorted : events.Chain' (fun a b => a.timestamp ≤ b.timestamp))
    (hsorted2 : times.Chain' (· ≤ ·)) :
    (preprocess_releases_for_prediction interval_minutes events).head? = events.head? ∧
    (preprocess_releases_for_prediction interval_minutes events).Sublist events ∧
    1 ≤ (preprocess_releases_for_prediction interval_minutes events).length ∧
    (preprocess_releases_for_prediction interval_minutes events).length ≤ events.length ∧
    (filter_times 600 times).head? = times.head? ∧
    (filter_times 600 times).Sublist times ∧
    1 ≤ (filter_times 600 times).length ∧
    (filter_times 600 times).length ≤ times.length := by
  obtain ⟨e, es, rfl⟩ := List.exists_cons_of_ne_nil hne
  obtain ⟨t, ts, rfl⟩ := List.exists_cons_of_ne_nil hne2
  obtain ⟨s, hs, hsub⟩ := filter_times_go_append 600 ts [t]
  have hB0 : filter_times 600 (t :: ts) = t :: s := by
    rw [filter_times, filter_times_go, if_pos (by simp)]
    simpa using hs
  have hsubA := dedup_go_sublist (interval_minutes * 60) none (e :: es)
  have hsubB : (filter_times 600 (t :: ts)).Sublist (t :: ts) := by
    rw [hB0]
    exact hsub.cons₂ t
  refine ⟨?_, hsubA, ?_, hsubA.length_le, ?_, hsubB, ?_, hsubB.length_le⟩
  · simp [preprocess_releases_for_prediction, dedup_go]
  · simp [preprocess_releases_for_prediction, dedup_go]
  · simp [hB0]
  · simp [hB0]

/-- Concrete instance of claim C9 at interval 15 on events 0 s, 300 s and
times 0 s, 300 s. -/
theorem C9_earliest_retained_witness :
    (([⟨0, 0⟩, ⟨300, 1⟩] : List ReleaseEvent)) ≠ [] ∧
    ([0, 300] : List Int) ≠ [] ∧
    (preprocess_releases_for_prediction 15 [⟨0, 0⟩, ⟨300, 1⟩]).head? =
      (([⟨0, 0⟩, ⟨300, 1⟩] : List ReleaseEvent)).head? ∧
    (filter_times 600 [0, 300]).head? = ([0, 300] : List Int).head? ∧
    (filter_times 600 [0, 300]).length ≤ 2 :=
  ⟨by decide, by decide,
    (C9_earliest_retained 15 [⟨0, 0⟩, ⟨300, 1⟩] [0, 300]
      (by decide) (by decide) (by simp [List.chain'_cons]) (by simp [List.chain'_cons])).1,
    (C9_earliest_retained 15 [⟨0, 0⟩, ⟨300, 1⟩] [0, 300]
      (by decide) (by decide) (by simp [List.chain'_cons]) (by simp [List.chain'_cons])).2.2.2.2.1,
    (C9_earliest_retained 15 [⟨0, 0⟩, ⟨300, 1⟩] [0, 300]
      (by decide) (by decide) (by simp [List.chain'_cons]) (by simp [List.chain'_cons])).2.2.2.2.2.2.2⟩

/-- Claim C10: the all-retained (Policy B, 10-minute) filter handles each
civil date independently: the result for date `d` depends only on the items of
date `d`, so events on different dates are never compared (in the concrete
instance, events 23:58 on day 0 and 00:03 on day 1, only 300 s apart, are both
retained), while within one date every retained pair is at least 600 s
apart. -/
theorem C10_per_date_independence :
    (∀ (items : List ObservedItem) (d : Int),
      analyze_release_patterns items d =
        analyze_release_patterns (items.filter (fun i => i.date = d)) d) ∧
    (∀ (items : List ObservedItem) (d : Int),
      (analyze_release_patterns items d).Pairwise (fun a b => 600 ≤ |b - a|)) ∧
    analyze_release_patterns [⟨0, 86280⟩, ⟨1, 86580⟩] 0 = [86280] ∧
    analyze_release_patterns [⟨0, 86280⟩, ⟨1, 86580⟩] 1 = [86580] := by
  refine ⟨?_, ?_, by decide, by decide⟩
  · intro items d
    simp [analyze_release_patterns, List.filter_filter]
  · intro items d
    exact filter_times_pairwise 600 _

/-- A rounded time-of-day lands on one of the generated coarse slots exactly
when the time lies inside the 10:00-20:00 window. -/
lemma round15_mem (t : Nat) :
    round15 t ∈ all_time_slots ↔ (600 ≤ t ∧ t < 1200) := by
  simp only [all_time_slots, round15, List.mem_map, List.mem_range]
  constructor
  · rintro ⟨i, hi, hEq⟩
    omega
  · intro h
    exact ⟨t / 15 - 40, by omega, by omega⟩

/-- The generated fine slots are exactly the minutes of the 10:00-20:00
window. -/
lemma minute_mem (m : Nat) :
    m ∈ all_minute_slots ↔ (600 ≤ m ∧ m < 1200) := by
  simp only [all_minute_slots, List.mem_map, List.mem_range]
  constructor
  · rintro ⟨i, hi, hEq⟩
    omega
  · intro h
    exact ⟨m - 600, by omega, by omega⟩

/-- The coarse slot starts are strictly increasing. -/
lemma all_time_slots_pairwise : all_time_slots.Pairwise (· < ·) := by
  rw [all_time_slots, List.pairwise_map]
  exact (List.pairwise_lt_range 40).imp (by omega)

/-- The coarse slot starts are distinct. -/
lemma all_time_slots_nodup : all_time_slots.Nodup :=
  all_time_slots_pairwise.imp ne_of_lt

/-- Summing a pointwise sum of naturals over a list splits. -/
lemma sum_map_add {α : Type} (l : List α) (f g : α → Nat) :
    (l.map (fun s => f s + g s)).sum = (l.map f).sum + (l.map g).sum := by
  induction l with
  | nil => simp
  | cons x xs ih =>
    simp only [List.map_cons, List.sum_cons, ih]
    omega

/-- Over a duplicate-free list, the indicator of equality with `a` sums to one
exactly when `a` is a member. -/
lemma sum_map_ite_count {l : List Nat} (hnd : l.Nodup) (a : Nat) :
    (l.map (fun s => if a = s then 1 else 0)).sum = if a ∈ l then 1 else 0 := by
  induction l with
  | nil => simp
  | cons x xs ih =>
    rw [List.nodup_cons] at hnd
    by_cases hax : a = x
    · subst hax
      have hnot : a ∉ xs := hnd.1
      simp [ih hnd.2, hnot]
    · simp [hax, ih hnd.2]

/-- Gate form of the bucket-count partition: when a gate predicate implies
that the rounded time lands on a generated slot, the per-slot counts of gated
events sum to the total count of gated events. -/
lemma slots_sum_count_gate (g : Nat → Bool)
    (hg : ∀ t, g t = true → round15 t ∈ all_time_slots) (E : List Nat) :
    (all_time_slots.map (fun s =>
      E.countP (fun t => g t && decide (round15 t = s)))).sum = E.countP g := by
  induction E with
  | nil => simp
  | cons t E ih =>
    have hmap : all_time_slots.map (fun s =>
        (t :: E).countP (fun u => g u && decide (round15 u = s))) =
        all_time_slots.map (fun s =>
          E.countP (fun u => g u && decide (round15 u = s)) +
            if g t = true ∧ round15 t = s then 1 else 0) := by
      apply List.map_congr_left
      intro s _
      have hone : (if (g t && decide (round15 t = s)) = true then (1 : Nat) else 0) =
          if g t = true ∧ round15 t = s then 1 else 0 := by
        simp [Bool.and_eq_true, decide_eq_true_eq]
      rw [List.countP_cons, hone]
    rw [hmap, sum_map_add, ih, List.countP_cons]
    have hmid : (all_time_slots.map (fun s =>
        if g t = true ∧ round15 t = s then (1 : Nat) else 0)).sum =
        if g t = true then 1 else 0 := by
      by_cases hgt : g t = true
      · have hmem := hg t hgt
        have heq : all_time_slots.map (fun s =>
            if g t = true ∧ round15 t = s then (1 : Nat) else 0) =
            all_time_slots.map (fun s => if round15 t = s then (1 : Nat) else 0) :=
          List.map_congr_left (fun s _ => by simp [hgt])
        rw [heq, sum_map_ite_count all_time_slots_nodup, if_pos hmem, if_pos hgt]
      · have heq : all_time_slots.map (fun s =>
            if g t = true ∧ round15 t = s then (1 : Nat) else 0) =
            all_time_slots.map (fun _ => (0 : Nat)) :=
          List.map_congr_left (fun s _ => by simp [hgt])
        rw [heq, if_neg hgt]
        simp
    rw [hmid]

/-- The per-slot counts of `calculate_release_time_distribution` sum to the
number of in-window events. -/
lemma slots_sum_count (E : List Nat) :
    (all_time_slots.map (fun s => slotCount E s)).sum =
      E.countP (fun t => decide (600 ≤ t ∧ t < 1200)) := by
  have h1 : all_time_slots.map (fun s => slotCount E s) =
      all_time_slots.map (fun s =>
        E.countP (fun t => decide (round15 t ∈ all_time_slots) &&
          decide (round15 t = s))) := by
    apply List.map_congr_left
    intro s _
    rw [slotCount]
    apply List.countP_congr
    intro a _
    simp [Bool.and_eq_true, decide_eq_true_eq, and_comm]
  rw [h1, slots_sum_count_gate _ (fun t ht => by simpa using ht)]
  apply List.countP_congr
  intro a _
  simp only [decide_eq_true_eq]
  exact round15_mem a

/-- The counting guard of `calculate_corrected_distribution` passes exactly
the events between 10:00 and 19:45. -/
lemma corrected_guard_iff (t : Nat) :
    corrected_counted t = true ↔ (600 ≤ t ∧ t < 1185) := by
  rw [corrected_counted]
  by_cases him : (t % 60 / 15) * 15 < 45
  · simp only [him, if_true, Bool.and_eq_true, decide_eq_true_eq]
    omega
  · simp only [him, if_false, Bool.and_eq_true, decide_eq_true_eq]
    omega

/-- The per-slot counts of `calculate_corrected_distribution` sum to the
number of events passing its guard. -/
lemma corrected_slots_sum (E : List Nat) :
    (all_time_slots.map (fun s => corrected_slotCount E s)).sum =
      E.countP (fun t => corrected_counted t) := by
  apply slots_sum_count_gate
  intro t ht
  have h := (corrected_guard_iff t).1 ht
  exact (round15_mem t).2 ⟨h.1, by omega⟩

/-- Summing `count / total * 100` over a list of counts equals the summed
count over the total times 100. -/
lemma sum_map_cast_div {α : Type} (l : List α) (g : α → Nat) (L : Rat) :
    (l.map (fun s => (g s : Rat) / L * 100)).sum =
      (((l.map g).sum : Nat) : Rat) / L * 100 := by
  induction l with
  | nil => simp
  | cons x xs ih =>
    simp only [List.map_cons, List.sum_cons, ih]
    push_cast
    ring

/-- Closed form of the percentage sum of `calculate_release_time_distribution`:
the percentages add up to `100 * in_window_count / total`, where the
denominator `total` counts all deduplicated events, in or out of window. -/
lemma distBody_pct_sum (E : List Nat) :
    ((distBody E).buckets.map (fun b => b.percentage)).sum =
      100 * (E.countP (fun t => decide (600 ≤ t ∧ t < 1200)) : Rat) /
        (E.length : Rat) := by
  rw [distBody, List.map_map]
  have hcomp : ((fun b : BucketStat => b.percentage) ∘ fun s =>
      ({ start := s, count := slotCount E s,
         percentage := (slotCount E s : Rat) / (E.length : Rat) * 100 } : BucketStat)) =
      fun s => (slotCount E s : Rat) / (E.length : Rat) * 100 := rfl
  rw [hcomp, sum_map_cast_div, slots_sum_count]
  ring

/-- Closed form of the percentage sum of `calculate_corrected_distribution`
for a non-empty deduplicated set: `100 * guarded_count / total`. -/
lemma corrected_pct_sum (E : List Nat) (hne : E ≠ []) :
    ((corrected_distBody E).buckets.map (fun b => b.percentage)).sum =
      100 * (E.countP (fun t => corrected_counted t) : Rat) / (E.length : Rat) := by
  have hL : 0 < E.length := List.length_pos.mpr hne
  rw [corrected_distBody, List.map_map]
  have hcomp : ((fun b : BucketStat => b.percentage) ∘ fun s =>
      ({ start := s, count := corrected_slotCount E s,
         percentage := if 0 < E.length then
           (corrected_slotCount E s : Rat) / (E.length : Rat) * 100 else 0 } : BucketStat)) =
      fun s => (corrected_slotCount E s : Rat) / (E.length : Rat) * 100 := by
    funext s
    simp [hL]
  rw [hcomp, sum_map_cast_div, corrected_slots_sum]
  ring

/-- Counterexample to claim C1: for the deduplicated time-of-day set
09:00 (540) and 10:00 (600) — an admissible Policy A output for any interval
up to one hour — the bucket percentages of
`calculate_release_time_distribution` sum to 50, not 100: the 09:00 event is
excluded from every bucket count but still sits in the percentage
denominator, and 50 is not within 1e-6 of 100. -/
theorem C1_percentage_partition_counterexample :
    ((distBody [540, 600]).buckets.map (fun b => b.percentage)).sum = 50 ∧
    ¬(|((distBody [540, 600]).buckets.map (fun b => b.percentage)).sum - 100| ≤
      1 / 1000000) := by
  have h := distBody_pct_sum [540, 600]
  have hc : ([540, 600] : List Nat).countP
      (fun t => decide (600 ≤ t ∧ t < 1200)) = 1 := by decide
  rw [hc] at h
  have h50 : ((distBody [540, 600]).buckets.map (fun b => b.percentage)).sum = 50 := by
    rw [h]
    norm_num
  refine ⟨h50, ?_⟩
  rw [h50, show (50 : Rat) - 100 = -50 by norm_num, abs_neg,
    abs_of_nonneg (by norm_num : (0 : Rat) ≤ 50)]
  norm_num

/-- Claim C1 as amended: out-of-window events are excluded from the bucket
counts but remain in the percentage denominator, so for every venue with
events the percentages of the coarse distribution sum to
`100 * in_window_count / total_events` (exactly, in rational arithmetic) —
this equals 100 only when every deduplicated event lies inside the window.
In `calculate_corrected_distribution` the counted set is further reduced to
events before 19:45 by its end-hour guard. -/
theorem C1_percentage_partition_amended (E : List Nat) (hne : E ≠ []) :
    ((distBody E).buckets.map (fun b => b.percentage)).sum =
      100 * (E.countP (fun t => decide (600 ≤ t ∧ t < 1200)) : Rat) /
        (E.length : Rat) ∧
    ((corrected_distBody E).buckets.map (fun b => b.percentage)).sum =
      100 * (E.countP (fun t => corrected_counted t) : Rat) / (E.length : Rat) :=
  ⟨distBody_pct_sum E, corrected_pct_sum E hne⟩

/-- Concrete instance of amended claim C1 on the set 09:00, 10:00. -/
theorem C1_percentage_partition_witness :
    ([540, 600] : List Nat) ≠ [] ∧
    ((distBody [540, 600]).buckets.map (fun b => b.percentage)).sum =
      100 * (([540, 600] : List Nat).countP
        (fun t => decide (600 ≤ t ∧ t < 1200)) : Rat) /
        (([540, 600] : List Nat).length : Rat) ∧
    ((corrected_distBody [540, 600]).buckets.map (fun b => b.percentage)).sum =
      100 * (([540, 600] : List Nat).countP (fun t => corrected_counted t) : Rat) /
        (([540, 600] : List Nat).length : Rat) :=
  ⟨by decide, (C1_percentage_partition_amended [540, 600] (by decide)).1,
    (C1_percentage_partition_amended [540, 600] (by decide)).2⟩

/-- Claim C5 evaluated at its failing input: a single deduplicated event at
19:50 (minute 1190) lies inside the 10:00-20:00 window and the claimed formula
assigns it to the generated bucket starting 19:45 (minute 1185) — the coarse
pass of `calculate_release_time_distribution` indeed counts it there — but the
counting guard of `calculate_corrected_distribution` drops it, leaving every
one of its buckets (including the emitted 19:45~20:00 bucket) at count 0
while `total_releases = 1`. -/
theorem C5_window_coverage_code_eval :
    (600 ≤ 1190 ∧ 1190 < 1200) ∧
    (1190 - 600) / 15 * 15 + 600 = 1185 ∧
    round15 1190 = 1185 ∧
    1185 ∈ all_time_slots ∧
    slotCount [1190] 1185 = 1 ∧
    corrected_slotCount [1190] 1185 = 0 ∧
    (all_time_slots.map (fun s => corrected_slotCount [1190] s)).sum = 0 ∧
    (corrected_distBody [1190]).total_releases = 1 := by
  refine ⟨by decide, by decide, by decide, by decide, by decide, by decide, by decide, rfl⟩

/-- Counterexample to claim C8: a venue whose deduplicated event set is empty
is omitted from the output of both distribution functions (`continue` in the
source), rather than yielding a distribution with `total_events == 0`. -/
theorem C8_empty_venue_counterexample :
    calculate_release_time_distribution [] = none ∧
    calculate_corrected_distribution [] = none :=
  ⟨rfl, rfl⟩

/-- Claim C8 as amended: a venue with an empty deduplicated event set is
omitted from the output (and only such venues are omitted), so no exception
or division by zero can arise from it; a venue whose (non-empty) deduplicated
events all fall outside the 10:00-20:00 window instead yields a distribution
whose buckets all have `count == 0` and `percentage == 0` and whose ranking
is empty. -/
theorem C8_empty_venue_amended (E : List Nat)
    (hnw : E.countP (fun t => decide (600 ≤ t ∧ t < 1200)) = 0) :
    (calculate_release_time_distribution E = none ↔ E = []) ∧
    (distBody E).buckets.map (fun b => (b.count, b.percentage)) =
      all_time_slots.map (fun _ => ((0 : Nat), (0 : Rat))) ∧
    ranking_of (distBody E) = [] := by
  have hzero : ∀ s ∈ all_time_slots, slotCount E s = 0 := by
    intro s _
    rw [slotCount, List.countP_eq_zero]
    intro a ha hcon
    rw [decide_eq_true_eq] at hcon
    have hwin := (round15_mem a).1 hcon.2
    have := (List.countP_eq_zero.mp hnw) a ha
    rw [decide_eq_true_eq] at this
    exact this hwin
  refine ⟨?_, ?_, ?_⟩
  · rw [calculate_release_time_distribution]
    cases E with
    | nil => simp
    | cons x xs => simp
  · rw [distBody, List.map_map]
    apply List.map_congr_left
    intro s hs
    simp [Function.comp, hzero s hs]
  · rw [ranking_of]
    have hfil : (distBody E).buckets.filter (fun b => decide (0 < b.percentage)) = [] := by
      rw [List.filter_eq_nil_iff]
      intro b hb
      rw [distBody] at hb
      obtain ⟨s, hs, rfl⟩ := List.mem_map.mp hb
      simp [hzero s hs]
    rw [hfil]
    rfl

/-- Membership in the insertion step of the ranking sort. -/
lemma mem_insertByPct {z x : BucketStat} : ∀ {l : List BucketStat},
    z ∈ insertByPct x l ↔ z = x ∨ z ∈ l := by
  intro l
  induction l with
  | nil => simp [insertByPct]
  | cons y ys ih =>
    by_cases h : y.percentage < x.percentage
    · rw [insertByPct, if_pos h]
      simp
    · rw [insertByPct, if_neg h]
      rw [List.mem_cons, List.mem_cons, ih]
      tauto

/-- Inserting a bucket whose start lies after every start already present
preserves the ranking order: percentage strictly descending, ties by start
ascending. -/
lemma insertByPct_pairwise (x : BucketStat) : ∀ (l : List BucketStat),
    l.Pairwise (fun a b => b.percentage < a.percentage ∨
      (a.percentage = b.percentage ∧ a.start < b.start)) →
    (∀ y ∈ l, y.start < x.start) →
    (insertByPct x l).Pairwise (fun a b => b.percentage < a.percentage ∨
      (a.percentage = b.percentage ∧ a.start < b.start)) := by
  intro l
  induction l with
  | nil =>
    intro _ _
    simp [insertByPct]
  | cons y ys ih =>
    intro hp hs
    rw [List.pairwise_cons] at hp
    by_cases h : y.percentage < x.percentage
    · rw [insertByPct, if_pos h]
      refine List.Pairwise.cons ?_ (List.Pairwise.cons hp.1 hp.2)
      intro z hz
      rcases List.mem_cons.mp hz with rfl | hz'
      · exact Or.inl h
      · rcases hp.1 z hz' with h1 | h2
        · exact Or.inl (lt_trans h1 h)
        · exact Or.inl (by rw [← h2.1]; exact h)
    · rw [insertByPct, if_neg h]
      refine List.Pairwise.cons ?_
        (ih hp.2 (fun z hz => hs z (List.mem_cons_of_mem y hz)))
      intro z hz
      rcases mem_insertByPct.mp hz with rfl | hz'
      · rcases lt_or_eq_of_le (not_lt.mp h) with h1 | h1
        · exact Or.inl h1
        · exact Or.inr ⟨h1.symm, hs y (List.mem_cons_self y ys)⟩
      · exact hp.1 z hz'

/-- Membership after folding insertions. -/
lemma mem_foldl_insertByPct {z : BucketStat} : ∀ (l acc : List BucketStat),
    z ∈ l.foldl (fun a b => insertByPct b a) acc ↔ z ∈ acc ∨ z ∈ l := by
  intro l
  induction l with
  | nil => intro acc; simp
  | cons x xs ih =>
    intro acc
    rw [List.foldl_cons, ih, mem_insertByPct, List.mem_cons]
    tauto

/-- Membership in the stable ranking sort equals membership in its input. -/
lemma mem_stableSortDesc {z : BucketStat} {l : List BucketStat} :
    z ∈ stableSortDesc l ↔ z ∈ l := by
  rw [stableSortDesc, mem_foldl_insertByPct]
  simp

/-- Folding the stable insertions over buckets listed in ascending start order
produces the ranking order. -/
lemma foldl_insertByPct_pairwise : ∀ (l acc : List BucketStat),
    acc.Pairwise (fun a b => b.percentage < a.percentage ∨
      (a.percentage = b.percentage ∧ a.start < b.start)) →
    (∀ y ∈ acc, ∀ x ∈ l, y.start < x.start) →
    l.Pairwise (fun a b => a.start < b.start) →
    (l.foldl (fun a b => insertByPct b a) acc).Pairwise
      (fun a b => b.percentage < a.percentage ∨
        (a.percentage = b.percentage ∧ a.start < b.start)) := by
  intro l
  induction l with
  | nil =>
    intro acc hacc _ _
    simpa using hacc
  | cons x xs ih =>
    intro acc hacc hcross hl
    rw [List.pairwise_cons] at hl
    rw [List.foldl_cons]
    refine ih (insertByPct x acc) ?_ ?_ hl.2
    · exact insertByPct_pairwise x acc hacc
        (fun y hy => hcross y hy x (List.mem_cons_self x xs))
    · intro y hy z hz
      rcases mem_insertByPct.mp hy with rfl | hy'
      · exact hl.1 z hz
      · exact hcross y hy' z (List.mem_cons_of_mem x hz)

/-- The ranking of any distribution whose bucket list is in ascending start
order is sorted by percentage descending with ties broken by ascending start. -/
lemma ranking_of_pairwise (d : VenueDistribution)
    (hd : d.buckets.Pairwise (fun a b => a.start < b.start)) :
    (ranking_of d).Pairwise (fun a b => b.percentage < a.percentage ∨
      (a.percentage = b.percentage ∧ a.start < b.start)) := by
  rw [ranking_of, stableSortDesc]
  exact foldl_insertByPct_pairwise _ [] (by simp) (by simp) (hd.filter _)

/-- Every entry of a ranking has positive count, provided positive percentage
forces positive count over the distribution's buckets. -/
lemma ranking_of_count_pos (d : VenueDistribution)
    (h : ∀ b ∈ d.buckets, 0 < b.percentage → 0 < b.count) :
    List.Forall (fun b => 0 < b.count) (ranking_of d) := by
  rw [List.forall_iff_forall_mem]
  intro z hz
  rw [ranking_of, mem_stableSortDesc, List.mem_filter] at hz
  refine h z hz.1 ?_
  have := hz.2
  rwa [decide_eq_true_eq] at this

/-- The coarse bucket rows are listed in ascending start order. -/
lemma distBody_buckets_pairwise (E : List Nat) :
    (distBody E).buckets.Pairwise (fun a b => a.start < b.start) := by
  rw [distBody, List.pairwise_map]
  exact all_time_slots_pairwise.imp (fun h => h)

/-- The corrected bucket rows are listed in ascending start order. -/
lemma corrected_distBody_buckets_pairwise (E : List Nat) :
    (corrected_distBody E).buckets.Pairwise (fun a b => a.start < b.start) := by
  rw [corrected_distBody, List.pairwise_map]
  exact all_time_slots_pairwise.imp (fun h => h)

/-- In a coarse bucket row, a positive percentage forces a positive count. -/
lemma distBody_pct_pos (E : List Nat) :
    ∀ b ∈ (distBody E).buckets, 0 < b.percentage → 0 < b.count := by
  intro b hb hpct
  rw [distBody] at hb
  obtain ⟨s, hs, rfl⟩ := List.mem_map.mp hb
  rcases Nat.eq_zero_or_pos (slotCount E s) with h0 | h0
  · simp [h0] at hpct
  · exact h0

/-- In a corrected bucket row, a positive percentage forces a positive
count. -/
lemma corrected_distBody_pct_pos (E : List Nat) :
    ∀ b ∈ (corrected_distBody E).buckets, 0 < b.percentage → 0 < b.count := by
  intro b hb hpct
  rw [corrected_distBody] at hb
  obtain ⟨s, hs, rfl⟩ := List.mem_map.mp hb
  rcases Nat.eq_zero_or_pos (corrected_slotCount E s) with h0 | h0
  · by_cases hL : 0 < E.length
    · simp [h0, hL] at hpct
    · simp [h0, hL] at hpct
  · exact h0

/-- Claim C6: for every venue distribution of either distribution function,
the ranking is sorted by percentage descending, buckets with equal percentage
appear in ascending order of bucket start time, and every ranking entry has
`count > 0`. -/
theorem C6_ranking_order (E F : List Nat) :
    ((ranking_of (distBody E)).Pairwise (fun a b =>
        b.percentage < a.percentage ∨
          (a.percentage = b.percentage ∧ a.start < b.start)) ∧
      List.Forall (fun b => 0 < b.count) (ranking_of (distBody E))) ∧
    ((ranking_of (corrected_distBody F)).Pairwise (fun a b =>
        b.percentage < a.percentage ∨
          (a.percentage = b.percentage ∧ a.start < b.start)) ∧
      List.Forall (fun b => 0 < b.count) (ranking_of (corrected_distBody F))) :=
  ⟨⟨ranking_of_pairwise _ (distBody_buckets_pairwise E),
      ranking_of_count_pos _ (distBody_pct_pos E)⟩,
    ⟨ranking_of_pairwise _ (corrected_distBody_buckets_pairwise F),
      ranking_of_count_pos _ (corrected_distBody_pct_pos F)⟩⟩

/-- Filtering a mapped list equals mapping the filtered preimages. -/
lemma filter_map_swap {α β : Type} (f : α → β) (p : β → Bool) (l : List α) :
    (l.map f).filter p = (l.filter (fun a => p (f a))).map f := by
  induction l with
  | nil => rfl
  | cons x xs ih =>
    by_cases h : p (f x) = true
    · simp [List.filter_cons, h, ih]
    · simp [List.filter_cons, h, ih]

/-- A coarse bucket percentage is positive exactly when its count is. -/
lemma pct_pos_iff (E : List Nat) (s : Nat) :
    0 < (slotCount E s : Rat) / (E.length : Rat) * 100 ↔ 0 < slotCount E s := by
  rcases Nat.eq_zero_or_pos (slotCount E s) with h | h
  · simp [h]
  · have hL : 0 < E.length := lt_of_lt_of_le h (List.countP_le_length _)
    have hc : (0 : Rat) < (slotCount E s : Rat) := by exact_mod_cast h
    have hL2 : (0 : Rat) < (E.length : Rat) := by exact_mod_cast hL
    constructor
    · intro _
      exact h
    · intro _
      exact mul_pos (div_pos hc hL2) (by norm_num)

/-- The positive-percentage buckets of a coarse distribution are the images of
the slots with positive count. -/
lemma distBody_filter (E : List Nat) :
    (distBody E).buckets.filter (fun b => decide (0 < b.percentage)) =
      (all_time_slots.filter (fun s => decide (0 < slotCount E s))).map
        (fun s => (⟨s, slotCount E s,
          (slotCount E s : Rat) / (E.length : Rat) * 100⟩ : BucketStat)) := by
  rw [distBody, filter_map_swap]
  congr 1
  apply List.filter_congr
  intro s _
  exact decide_eq_decide.mpr (pct_pos_iff E s)

/-- Inserting into the empty ranking. -/
lemma insertByPct_nil (b : BucketStat) : insertByPct b [] = [b] := rfl

/-- Unfolding one insertion step of the ranking sort. -/
lemma insertByPct_cons (b c : BucketStat) (cs : List BucketStat) :
    insertByPct b (c :: cs) =
      if c.percentage < b.percentage then b :: c :: cs
      else c :: insertByPct b cs := rfl

/-- The stable ranking sort keeps a tied (or descending) pair in input
order. -/
lemma stableSortDesc_pair (b1 b2 : BucketStat)
    (h : ¬(b1.percentage < b2.percentage)) :
    stableSortDesc [b1, b2] = [b1, b2] := by
  rw [stableSortDesc, List.foldl_cons, List.foldl_cons, List.foldl_nil,
    insertByPct_nil, insertByPct_cons, if_neg h, insertByPct_nil]

set_option maxRecDepth 8000 in
/-- Counterexample to claim C2: for the deduplicated time-of-day set
10:00 (600) and 11:30 (690) the top-ranked coarse 15-minute bucket is
`[600, 615)` (the ranking starts with bucket 600), yet the fine 1-minute pass
of `calculate_detailed_ireland_distribution` still counts the event at minute
690, which lies outside that sub-window: the fine pass is not restricted to
the top coarse bucket. -/
theorem C2_zoom_counterexample :
    (ranking_of (distBody [600, 690])).map (fun b => b.start) = [600, 690] ∧
    minuteCount [600, 690] 690 = 1 ∧
    ¬(690 < 615) := by
  refine ⟨?_, by decide, by decide⟩
  have hfil := distBody_filter [600, 690]
  have hslots : all_time_slots.filter
      (fun s => decide (0 < slotCount [600, 690] s)) = [600, 690] := by decide
  have hc1 : slotCount [600, 690] 600 = 1 := by decide
  have hc2 : slotCount [600, 690] 690 = 1 := by decide
  have hneg : ¬(((slotCount [600, 690] 600 : Nat) : Rat) /
      ((([600, 690] : List Nat).length : Nat) : Rat) * 100 <
      ((slotCount [600, 690] 690 : Nat) : Rat) /
      ((([600, 690] : List Nat).length : Nat) : Rat) * 100) := by
    rw [hc1, hc2]
    exact lt_irrefl _
  rw [ranking_of, hfil, hslots, List.map_cons, List.map_cons, List.map_nil,
    stableSortDesc_pair _ _ hneg]
  rfl

/-- Claim C2 as amended: the fine-resolution (1-minute) second pass re-buckets
over the entire 10:00-20:00 business-hours window — not over a sub-window
restricted to the top-ranked coarse bucket — using the same deduplicated event
set produced by the 15-minute deduplication; an event is counted at a fine
slot exactly when its minute-of-day equals that slot and lies inside the
window, so only events outside the full window are uncounted. -/
theorem C2_full_window_fine_pass_amended :
    (∀ m, m ∈ all_minute_slots ↔ (600 ≤ m ∧ m < 1200)) ∧
    (∀ E : List Nat,
      (detailedBody E).buckets.map (fun b => b.start) = all_minute_slots) ∧
    (∀ (E : List Nat) (m : Nat), minuteCount E m =
      E.countP (fun t => decide (t = m ∧ 600 ≤ t ∧ t < 1200))) ∧
    (∀ data : List ReleaseEvent,
      detailed_pipeline data =
        calculate_detailed_ireland_distribution (pipeline_events data) ∧
      coarse_pipeline data =
        calculate_release_time_distribution (pipeline_events data)) := by
  refine ⟨minute_mem, ?_, ?_, fun data => ⟨rfl, rfl⟩⟩
  · intro E
    rw [detailedBody, List.map_map]
    have hid : all_minute_slots.map ((fun b : BucketStat => b.start) ∘ fun m =>
        (⟨m, minuteCount E m,
          (minuteCount E m : Rat) / (E.length : Rat) * 100⟩ : BucketStat)) =
        all_minute_slots.map (fun m => m) :=
      List.map_congr_left (fun m _ => rfl)
    rw [hid]
    exact List.map_id _
  · intro E m
    rw [minuteCount]
    apply List.countP_congr
    intro a _
    simp only [decide_eq_true_eq]
    constructor
    · rintro ⟨rfl, hmem⟩
      exact ⟨rfl, (minute_mem a).1 hmem⟩
    · rintro ⟨rfl, hw⟩
      exact ⟨rfl, (minute_mem a).2 hw⟩

/-- Concrete instance of amended claim C8 on the single out-of-window event
09:00 (540): no in-window events, all-zero buckets, empty ranking. -/
theorem C8_empty_venue_witness :
    ([540] : List Nat).countP (fun t => decide (600 ≤ t ∧ t < 1200)) = 0 ∧
    ((calculate_release_time_distribution [540] = none ↔ ([540] : List Nat) = []) ∧
      (distBody [540]).buckets.map (fun b => (b.count, b.percentage)) =
        all_time_slots.map (fun _ => ((0 : Nat), (0 : Rat))) ∧
      ranking_of (distBody [540]) = []) :=
  ⟨by decide, C8_empty_venue_amended [540] (by decide)⟩
